import Mathlib

/-!
Shallow embedding of the prompt-synchronization engine of the netmiko-v4
Cisco VXR/XR drivers:

* `src/netmiko/cisco/cisco_vxr_ssh.py` (read_until_pattern, find_prompt,
  send_command, check_config_mode, commit),
* `src/netmiko/cisco/cisco_xr.py` (CiscoXrBase.check_config_mode, commit),
* `src/netmiko/cisco_base_connection.py` (telnet_login),
* `src/netmiko/cafy_custom_exceptions.py` (LOOP_DELAY and exception kinds).

Text is modelled as `List Char`, wall-clock time in milliseconds, and the
channel as a trace `Nat → Poll`: the j-th loop iteration of a wait observes
`(tr j).closed` at the loop head and its read returns `(tr j).data`
(`clear_buffer`, `write_channel` and the transport are external collaborators,
absorbed into the trace).  Exceptions are modelled as result constructors.
Loops are written with fuel; for the time-bounded loops the fuel is chosen so
that the loop condition is provably false when the fuel runs out, so the
fuel-0 branch coincides with the source's loop-exit branch.

Regular-expression searches for escaped literals (`re.escape(...)` patterns
and the plain-text markers) are modelled as substring tests; the handful of
genuinely non-literal default patterns used by the claims (`\#\s*$`,
`>\s*$`, the x86 prompt pattern) are modelled by dedicated matchers.
-/

/-- Python whitespace class (`str.strip`, `\s`): space, tab, LF, CR, VT, FF. -/
def isPySpace (c : Char) : Bool :=
  c == ' ' || c == '\t' || c == '\n' || c == '\r' || c == '\x0b' || c == '\x0c'

/-- Python `str.strip()`: drop whitespace from both ends. -/
def pyStrip (l : List Char) : List Char :=
  ((l.dropWhile isPySpace).reverse.dropWhile isPySpace).reverse

/-- Python `str.lower()` on character-list texts. -/
def lowerL (l : List Char) : List Char := l.map Char.toLower

/-- Modelled from the spec: line-ending normalization (`normalize_linefeeds`
lives in `base_connection.py`, which is not under `src/`).  Modelled as
mapping every carriage return to a line feed. -/
def crlfChar (c : Char) : Char := if c = '\r' then '\n' else c

/-- Modelled from the spec: line-ending normalization, see `crlfChar`. -/
def normalizeLf (l : List Char) : List Char := l.map crlfChar

/-- Last line of a text: the segment after the final LF.  This models
`prompt.split(self.RESPONSE_RETURN)[-1]` with `RESPONSE_RETURN = "\n"`
(modelled from the spec: `RESPONSE_RETURN` lives in `base_connection.py`,
which is not under `src/`). -/
def lastLine (l : List Char) : List Char :=
  (l.reverse.takeWhile (fun c => c != '\n')).reverse

/-- Fuel-driven core of `pyReplace`; fuel `s.length` always suffices for a
nonempty pattern because every step consumes at least one character of `s`. -/
def pyReplaceFuel (pat repl : List Char) : ℕ → List Char → List Char
  | _, [] => []
  | 0, s => s
  | fuel+1, c :: rest =>
    if pat ≠ [] ∧ pat.isPrefixOf (c :: rest) then
      repl ++ pyReplaceFuel pat repl fuel (List.drop pat.length (c :: rest))
    else
      c :: pyReplaceFuel pat repl fuel rest

/-- Python `str.replace` for a nonempty pattern (the only way the sources use
it): replace every non-overlapping occurrence of `pat` by `repl`, scanning
left to right. -/
def pyReplace (pat repl s : List Char) : List Char :=
  pyReplaceFuel pat repl s.length s

/-- Python's substring test `pat in s` (also `re.search` for an escaped
literal pattern): does `pat` occur contiguously in `s`? -/
def containsSeq (pat : List Char) : List Char → Bool
  | [] => pat.isEmpty
  | c :: rest => pat.isPrefixOf (c :: rest) || containsSeq pat rest

/-- Modelled from the spec: the session line terminator `self.RETURN`
("\r\n"); `base_connection.py` is not under `src/`. -/
def RETURNs : List Char := ['\r', '\n']

/-- Split on the two-character sequence CRLF: `output.split(self.RETURN)`. -/
def splitCRLF : List Char → List (List Char)
  | [] => [[]]
  | '\r' :: '\n' :: rest => [] :: splitCRLF rest
  | c :: rest =>
    match splitCRLF rest with
    | [] => [[c]]
    | l :: ls => (c :: l) :: ls

/-- Join with CRLF: `self.RETURN.join(lines)`. -/
def joinCRLF (lines : List (List Char)) : List Char :=
  List.intercalate RETURNs lines

/-- Backspace control character (`BACKSPACE_CHAR` of `netmiko_globals.py`,
which is not under `src/`; the spec calls it the backspace control
character). -/
def BACKSPACE_CHAR : Char := '\x08'

/-- Helper of `dropFromOccur` for a nonempty pattern. -/
def dropFromOccurGo (pat : List Char) : List Char → List Char
  | [] => []
  | c :: rest =>
    if pat.isPrefixOf (c :: rest) then [] else c :: dropFromOccurGo pat rest

/-- Drop everything from the first occurrence of `pat` to the end of the
line: `re.sub(search_pattern + ".*$", repl="", string=first_line)` for a
literal (escaped) search pattern. -/
def dropFromOccur (pat l : List Char) : List Char :=
  if pat.isEmpty then [] else dropFromOccurGo pat l

/-- Echo-repaint correction of `send_command` (cisco_vxr_ssh.py lines
284-295): if the first CRLF-line of the accumulated output contains a
backspace character, the search pattern and everything after it are removed
from that line and the lines are rejoined; otherwise the output is left
untouched. -/
def echoRepaintCorrect (searchPat : List Char) (output : List Char) : List Char :=
  let lines := splitCRLF output
  let first := lines.headD []
  if BACKSPACE_CHAR ∈ first then
    joinCRLF (lines.set 0 (dropFromOccur searchPat first))
  else output

/-- One polling iteration of the channel: the closed flag observed at the
loop head of that iteration and the data returned by its read. -/
structure Poll where
  closed : Bool
  data : List Char
  deriving DecidableEq

/-- Cursor into the channel trace (`idx` iterations consumed so far) plus
the wall-clock time in milliseconds. -/
structure ChanSt where
  idx : ℕ
  now : ℕ
  deriving DecidableEq

/-- LOOP_DELAY from cafy_custom_exceptions.py (0.1 s), in milliseconds. -/
def LOOP_DELAY_MS : ℕ := 100

/-- Session state fixed at construction: `self.read_timeout` (milliseconds
here; seconds in the source) and the stripped base prompt. -/
structure Session where
  readTimeoutMs : ℕ
  basePrompt : List Char

/-- CiscoVxrSSH.__init__ (cisco_vxr_ssh.py lines 35-41):
`self.read_timeout = kwargs.get('read_timeout', 1800)` (1800 s). -/
def mkSession (readTimeoutKwarg : Option ℕ) (basePrompt : List Char) : Session :=
  ⟨readTimeoutKwarg.getD 1800000, basePrompt⟩

/-- Resolution of read_until_pattern's pattern argument (cisco_vxr_ssh.py
lines 104-105): an empty (absent) pattern becomes
`re.escape(self.base_prompt)`, a substring match on the base prompt. -/
def ruMatchOf (S : Session) (matchOpt : Option (List Char → Bool)) :
    List Char → Bool :=
  match matchOpt with
  | some f => f
  | none => fun out => containsSeq S.basePrompt out

/-- Result of read_until_pattern: return value, SessionDownException or
PatternNotFoundException. -/
inductive RupResult
  | matched (output : List Char) (st : ChanSt)
  | down (st : ChanSt)
  | notFound (output : List Char) (st : ChanSt)
  deriving DecidableEq

/-- Loop-exit branch of read_until_pattern (cisco_vxr_ssh.py lines 127-136):
a closed channel raises SessionDownException, otherwise
PatternNotFoundException. -/
def ruExit (tr : ℕ → Poll) (st : ChanSt) (out : List Char) : RupResult :=
  if (tr st.idx).closed then .down st else .notFound out st

/-- While-loop of read_until_pattern (cisco_vxr_ssh.py lines 109-126): while
the elapsed time is below `self.read_timeout` and the channel is open, read,
append, test the pattern (return on match), sleep LOOP_DELAY.  Every
iteration advances the clock by exactly LOOP_DELAY, so with fuel
`readTimeoutMs / 100 + 1` the loop condition is false whenever the fuel runs
out and the fuel-0 branch is exactly the source's loop-exit branch. -/
def ruGo (S : Session) (tr : ℕ → Poll) (m : List Char → Bool) (start : ℕ) :
    ℕ → ChanSt → List Char → RupResult
  | 0, st, out => ruExit tr st out
  | fuel+1, st, out =>
    if st.now - start < S.readTimeoutMs ∧ (tr st.idx).closed = false then
      if m (out ++ (tr st.idx).data) then
        .matched (out ++ (tr st.idx).data) ⟨st.idx + 1, st.now⟩
      else
        ruGo S tr m start fuel ⟨st.idx + 1, st.now + LOOP_DELAY_MS⟩
          (out ++ (tr st.idx).data)
    else ruExit tr st out

/-- read_until_pattern (cisco_vxr_ssh.py lines 72-136).  `matchOpt = none`
models the default empty pattern, which the source replaces by
`re.escape(self.base_prompt)` (a substring match on the base prompt); a
caller-supplied pattern is an abstract predicate on the accumulated output.
`maxLoopsArg` and `readTimeoutArg` mirror the deprecated/compatibility
parameters of the source signature, which the body never consults (the loop
bound is `self.read_timeout`). -/
def read_until_pattern (S : Session) (tr : ℕ → Poll)
    (matchOpt : Option (List Char → Bool)) (maxLoopsArg : Option ℕ)
    (readTimeoutArg : ℕ) (st : ChanSt) : RupResult :=
  ruGo S tr (ruMatchOf S matchOpt) st.now (S.readTimeoutMs / LOOP_DELAY_MS + 1) st []

/-- Result of find_prompt: the post-processed prompt, SessionDownException
or PromptNotFoundException. -/
inductive FpResult
  | found (prompt : List Char) (st : ChanSt)
  | down (st : ChanSt)
  | notFound (st : ChanSt)
  deriving DecidableEq

/-- Transient banner test of find_prompt (cisco_vxr_ssh.py lines 155-168):
case-insensitive substring test for "last login", "executing autocommand"
and "last switch-over" on the stripped read. -/
def transientB (prompt : List Char) : Bool :=
  containsSeq "last login".toList (lowerL prompt) ||
  containsSeq "executing autocommand".toList (lowerL prompt) ||
  containsSeq "last switch-over".toList (lowerL prompt)

/-- Loop-exit branch of find_prompt (cisco_vxr_ssh.py lines 181-189): a
closed channel raises SessionDownException, otherwise
PromptNotFoundException. -/
def fpExit (tr : ℕ → Poll) (st : ChanSt) : FpResult :=
  if (tr st.idx).closed then .down st else .notFound st

/-- While-loop of find_prompt (cisco_vxr_ssh.py lines 159-201).  A transient
read sleeps `LOOP_DELAY + 3` seconds, clears the buffer, resends the return
and sleeps LOOP_DELAY again (3200 ms in total); an empty read sleeps
LOOP_DELAY (100 ms); a non-empty non-transient read breaks the loop and is
post-processed (ANSI stripping modelled off, its source default) followed by
the final LOOP_DELAY sleep and buffer clear.  Every iteration that does not
break advances the clock by at least 100 ms, so with fuel
`readTimeoutMs / 100 + 1` the loop condition is false whenever the fuel runs
out, and the fuel-0 branch is exactly the source's loop-exit branch. -/
def fpGo (S : Session) (tr : ℕ → Poll) (start : ℕ) : ℕ → ChanSt → FpResult
  | 0, st => fpExit tr st
  | fuel+1, st =>
    if st.now - start < S.readTimeoutMs ∧ (tr st.idx).closed = false then
      if pyStrip (tr st.idx).data ≠ [] then
        if transientB (pyStrip (tr st.idx).data) then
          fpGo S tr start fuel ⟨st.idx + 1, st.now + 3200⟩
        else
          .found (pyStrip (lastLine (normalizeLf (pyStrip (tr st.idx).data))))
            ⟨st.idx + 1, st.now + LOOP_DELAY_MS⟩
      else
        fpGo S tr start fuel ⟨st.idx + 1, st.now + LOOP_DELAY_MS⟩
    else fpExit tr st

/-- find_prompt (cisco_vxr_ssh.py lines 140-201): clear the buffer, send the
return character, sleep LOOP_DELAY, then poll.  `delayFactorArg` and
`patternArg` mirror the deprecated/compatibility parameters of the source
signature, which the body never consults. -/
def find_prompt (S : Session) (tr : ℕ → Poll) (delayFactorArg : Option ℕ)
    (patternArg : Option (List Char)) (st : ChanSt) : FpResult :=
  fpGo S tr (st.now + LOOP_DELAY_MS) (S.readTimeoutMs / LOOP_DELAY_MS + 1)
    ⟨st.idx, st.now + LOOP_DELAY_MS⟩

/-- Modelled from the spec: `_sanitize_output` (command echo and/or trailing
prompt removed per caller flags, after line-ending normalization;
`base_connection.py` is not under `src/`). -/
def sanitizeOutput (stripCmd stripPrompt : Bool) (out : List Char) : List Char :=
  let o := normalizeLf out
  let o := if stripCmd then (o.dropWhile (fun c => c != '\n')).drop 1 else o
  if stripPrompt then (o.reverse.dropWhile (fun c => c != '\n')).reverse else o

/-- Result of send_command: sanitized output, SessionDownException,
PromptNotFoundException or PatternNotFoundException. -/
inductive SendResult
  | success (output : List Char) (st : ChanSt)
  | down (st : ChanSt)
  | promptNotFound (st : ChanSt)
  | patternNotFound (st : ChanSt)
  deriving DecidableEq

/-- Slow-operation banner checked by send_command (cisco_vxr_ssh.py line
251). -/
def configLargeMsg : List Char :=
  "This could be a few minutes if your config is large".toList

mutual

/-- Core of send_command (cisco_vxr_ssh.py lines 204-332), after the
deprecation warnings.  With `expect = none` the search pattern is the
stripped prompt from find_prompt (or `base_prompt` when `autoFP` is false),
escaped into a literal; with `expect = some pat` it is the caller's pattern
(modelled as a literal).  The normalized command is written to the channel,
which the trace abstracts; the fuel bounds loop iterations plus the
config-large recursion, and `none` means the budget was exhausted (the
source loop can run without bound while data keeps arriving). -/
def sendCommandCore (S : Session) (tr : ℕ → Poll) :
    ℕ → List Char → Option (List Char) → Bool → Bool → Bool → Bool → ChanSt →
    Option SendResult
  | 0, _, _, _, _, _, _, _ => none
  | fuel+1, _cmd, expect, autoFP, stripP, stripC, _norm, st =>
    match expect with
    | some pat => scGo S tr fuel pat false stripP stripC st.now st []
    | none =>
      if autoFP then
        match find_prompt S tr none none st with
        | .found p st1 => scGo S tr fuel (pyStrip p) true stripP stripC st1.now st1 []
        | .down st1 => some (.down st1)
        | .notFound st1 => some (.promptNotFound st1)
      else
        scGo S tr fuel (pyStrip S.basePrompt) true stripP stripC st.now st []

/-- While-loop of send_command (cisco_vxr_ssh.py lines 272-332): on new data
append, apply the echo-repaint correction, break on a pattern match; on the
config-large banner recursively send a bare return (auto_find_prompt,
strip_prompt and strip_command all False), append one more read and re-test;
sleep LOOP_DELAY only when no data arrived.  The loop-exit branch raises
SessionDownException on a closed channel, else PromptNotFoundException when
no explicit pattern was supplied, else PatternNotFoundException. -/
def scGo (S : Session) (tr : ℕ → Poll) :
    ℕ → List Char → Bool → Bool → Bool → ℕ → ChanSt → List Char →
    Option SendResult
  | 0, _, _, _, _, _, _, _ => none
  | fuel+1, searchPat, expectNone, stripP, stripC, start, st, out =>
    if st.now - start < S.readTimeoutMs ∧ (tr st.idx).closed = false then
      if (tr st.idx).data ≠ [] then
        if containsSeq searchPat (echoRepaintCorrect searchPat (out ++ (tr st.idx).data)) then
          some (.success
            (sanitizeOutput stripC stripP (echoRepaintCorrect searchPat (out ++ (tr st.idx).data)))
            ⟨st.idx + 1, st.now⟩)
        else if containsSeq configLargeMsg (echoRepaintCorrect searchPat (out ++ (tr st.idx).data)) then
          match sendCommandCore S tr fuel RETURNs none false false false true ⟨st.idx + 1, st.now⟩ with
          | none => none
          | some (.success innerOut st2) =>
            if containsSeq searchPat (innerOut ++ (tr st2.idx).data) then
              some (.success (sanitizeOutput stripC stripP (innerOut ++ (tr st2.idx).data))
                ⟨st2.idx + 1, st2.now⟩)
            else
              scGo S tr fuel searchPat expectNone stripP stripC start ⟨st2.idx + 1, st2.now⟩
                (innerOut ++ (tr st2.idx).data)
          | some r => some r
        else
          scGo S tr fuel searchPat expectNone stripP stripC start ⟨st.idx + 1, st.now⟩
            (echoRepaintCorrect searchPat (out ++ (tr st.idx).data))
      else
        scGo S tr fuel searchPat expectNone stripP stripC start ⟨st.idx + 1, st.now + LOOP_DELAY_MS⟩ out
    else
      if (tr st.idx).closed then some (.down st)
      else if expectNone then some (.promptNotFound st)
      else some (.patternNotFound st)

end

/-- send_command (cisco_vxr_ssh.py lines 204-332).  `delayFactorArg`,
`maxLoopsArg`, `readTimeoutArg` and `cmdVerifyArg` mirror the source's
deprecated/compatibility parameters, which the body never consults (the wait
is bounded by `self.read_timeout`); textfsm post-processing is an external
collaborator and out of scope. -/
def send_command (S : Session) (tr : ℕ → Poll) (fuel : ℕ) (cmd : List Char)
    (expect : Option (List Char)) (delayFactorArg maxLoopsArg : Option ℕ)
    (autoFindPrompt stripPromptFlag stripCmdFlag normFlag : Bool)
    (readTimeoutArg : ℕ) (cmdVerifyArg : Bool) (st : ChanSt) :
    Option SendResult :=
  sendCommandCore S tr fuel cmd expect autoFindPrompt stripPromptFlag stripCmdFlag normFlag st

/-- Python truthiness of the `confirm_delay` argument (`Optional[int]`):
`None` and `0` are falsy. -/
def optIntTruthy : Option Int → Bool
  | none => false
  | some n => n != 0

/-- Python `str()` of the confirm_delay argument, as used in
`'commit ... confirmed {0}'.format(str(confirm_delay))`. -/
def strOfConfirmDelay : Option Int → List Char
  | none => "None".toList
  | some n => (toString n).toList

/-- Pure prefix of CiscoVxrSSH.commit (cisco_vxr_ssh.py lines 489-529):
argument validation and command-string construction — everything the method
does before any channel I/O.  `none` models `raise ValueError`. -/
def commitPrepare (confirm : Bool) (confirmDelay : Option Int)
    (comment label : List Char) (replace bestEffort force : Bool) :
    Option (List Char) :=
  if confirm = true ∧ optIntTruthy confirmDelay = false then none
  else if optIntTruthy confirmDelay = true ∧ confirm = false then none
  else if comment ≠ [] ∧ confirm = true then none
  else if comment ≠ [] ∧ '"' ∈ comment then none
  else
    let commentQ := if comment ≠ [] then '"' :: (comment ++ ['"']) else comment
    let cs :=
      if label ≠ [] then
        if comment ≠ [] then
          "commit label ".toList ++ label ++ " comment ".toList ++ commentQ
        else if confirm then
          "commit label ".toList ++ label ++ " confirmed ".toList ++
            strOfConfirmDelay confirmDelay
        else "commit label ".toList ++ label
      else if confirm then
        "commit confirmed ".toList ++ strOfConfirmDelay confirmDelay
      else if comment ≠ [] then
        "commit comment ".toList ++ commentQ
      else "commit".toList
    let cs2 := if force then pyReplace "commit".toList "commit force".toList cs else cs
    let cs3 := if bestEffort then pyReplace "commit".toList "commit best-effort".toList cs2 else cs2
    some (if replace then pyReplace "commit".toList "commit replace".toList cs3 else cs3)

/-- CiscoXrBase.check_config_mode (cisco_xr.py lines 230-252) as a function
of the text returned by the mode wait: every occurrence of "(admin)" is
removed, then `')#' in output` is tested. -/
def xr_check_config_mode (output : List Char) : Bool :=
  containsSeq ")#".toList (pyReplace "(admin)".toList [] output)

/-- CiscoVxrSSH.check_config_mode (cisco_vxr_ssh.py lines 334-348) as a
function of the text returned by the mode wait: `')#' in output` is tested
directly, without removing "(admin)". -/
def vxr_check_config_mode (output : List Char) : Bool :=
  containsSeq ")#".toList output

/-- Tail test for `\s*$` under re.MULTILINE after a terminator character: a
(possibly empty) run of whitespace ending at the end of the string or
directly before an LF. -/
def wsThenEol : List Char → Bool
  | [] => true
  | c :: rest => if c = '\n' then true else isPySpace c && wsThenEol rest

/-- re.search of the default telnet_login terminator patterns `\#\s*$` and
`>\s*$` under re.MULTILINE, specialized to the literal terminator `t`. -/
def termMatch (t : Char) : List Char → Bool
  | [] => false
  | c :: rest => ((c == t) && wsThenEol rest) || termMatch t rest

/-- Rebooted-BMC prompt marker of telnet_login (cisco_base_connection.py
line 191). -/
def rebootedBmcPat : List Char := "cisco-bmc#".toList

/-- BMC prompt marker of telnet_login (cisco_base_connection.py line 200). -/
def bmcPromptPat : List Char := "root@spitfire-arm:~#".toList

/-- re.search of the x86 prompt pattern `(\S+@xr:~#)|(\S+@ios:~#)`
(cisco_base_connection.py line 210): at least one non-whitespace character
directly before a literal "@xr:~#" or "@ios:~#". -/
def x86Match : List Char → Bool
  | [] => false
  | c :: rest =>
    (!isPySpace c &&
      ("@xr:~#".toList.isPrefixOf rest || "@ios:~#".toList.isPrefixOf rest))
      || x86Match rest

/-- Spitfire-marker update of telnet_login (cisco_base_connection.py lines
328-331): `is_spitfire` becomes true when the current output matches the
rebooted-BMC, BMC or x86 prompt pattern. -/
def spitfireSeen (output : List Char) : Bool :=
  containsSeq rebootedBmcPat output || containsSeq bmcPromptPat output || x86Match output

/-- Final success check of a telnet_login iteration (cisco_base_connection.py
lines 328-337) with the default terminators: after updating `is_spitfire`
from the current output, the source evaluates
`re.search(pri, ...) or re.search(alt, ...) and not is_spitfire`, which by
Python precedence is `pri or (alt and not is_spitfire)`. -/
def telnetLoginCheck (output : List Char) (spitfirePrior : Bool) : Bool :=
  let sf := spitfirePrior || spitfireSeen output
  termMatch '#' output || (termMatch '>' output && !sf)

/-- Concatenation of the data of reads `i, i+1, ..., i+j-1` of a trace. -/
def accumData (tr : ℕ → Poll) (i : ℕ) : ℕ → List Char
  | 0 => []
  | j+1 => accumData tr i j ++ (tr (i + j)).data

/-- Milliseconds consumed by a find_prompt loop iteration that does not
break: 100 for an empty (stripped) read, 3200 for a transient banner. -/
def fpStepMs (tr : ℕ → Poll) (j : ℕ) : ℕ :=
  if pyStrip (tr j).data = [] then LOOP_DELAY_MS else 3200

/-- Wall-clock time consumed by the first `j` non-breaking find_prompt loop
iterations starting at read index `i`. -/
def fpElapsedFrom (tr : ℕ → Poll) (i : ℕ) : ℕ → ℕ
  | 0 => 0
  | j+1 => fpElapsedFrom tr i j + fpStepMs tr (i + j)

/-- Returned prompts free of the three transient banner substrings
(case-insensitively). -/
def noTransient (r : List Char) : Prop :=
  containsSeq "last login".toList (lowerL r) = false ∧
  containsSeq "executing autocommand".toList (lowerL r) = false ∧
  containsSeq "last switch-over".toList (lowerL r) = false

/-- Effect of one send_command loop iteration on the accumulated output
(cisco_vxr_ssh.py lines 277-295): an empty read leaves it unchanged, a
non-empty read is appended and the echo-repaint correction applied. -/
def scStep (searchPat : List Char) (tr : ℕ → Poll) (i : ℕ) (out : List Char) :
    List Char :=
  if (tr i).data = [] then out
  else echoRepaintCorrect searchPat (out ++ (tr i).data)

/-- Accumulated output of send_command's loop after `j` non-breaking
iterations starting at read index `i` from accumulator `out`. -/
def scAccum (searchPat : List Char) (tr : ℕ → Poll) (i : ℕ) (out : List Char) :
    ℕ → List Char
  | 0 => out
  | j+1 => scStep searchPat tr (i + j) (scAccum searchPat tr i out j)

/-- Milliseconds consumed by a send_command loop iteration: LOOP_DELAY for
an empty read (the source sleeps only in that case), 0 otherwise. -/
def scStepMs (tr : ℕ → Poll) (j : ℕ) : ℕ :=
  if (tr j).data = [] then LOOP_DELAY_MS else 0

/-- Wall-clock time consumed by send_command's first `j` non-breaking loop
iterations starting at read index `i`. -/
def scElapsedFrom (tr : ℕ → Poll) (i : ℕ) : ℕ → ℕ
  | 0 => 0
  | j+1 => scElapsedFrom tr i j + scStepMs tr (i + j)

/-- Search pattern of send_command when no prompt detection runs
(cisco_vxr_ssh.py lines 256-263): the caller's pattern when supplied,
otherwise `re.escape(self.base_prompt.strip())` (auto_find_prompt false). -/
def scPatOf (S : Session) (expect : Option (List Char)) : List Char :=
  match expect with
  | some p => p
  | none => pyStrip S.basePrompt

theorem isPrefixOf_iff_own {p l : List Char} : p.isPrefixOf l = true ↔ p <+: l := by
  induction p generalizing l with
  | nil => simp [List.isPrefixOf]
  | cons c cs ih =>
    cases l with
    | nil => simp [List.isPrefixOf]
    | cons d ds => simp [List.isPrefixOf, List.cons_prefix_cons, ih]

theorem containsSeq_iff_own {p l : List Char} : containsSeq p l = true ↔ p <:+: l := by
  induction l with
  | nil => simp [containsSeq]
  | cons c rest ih =>
    simp [containsSeq, isPrefixOf_iff_own, ih, List.infix_cons_iff]

theorem dropWhile_suffix_own (p : Char → Bool) (l : List Char) :
    ∃ t, t ++ l.dropWhile p = l := by
  induction l with
  | nil => exact ⟨[], rfl⟩
  | cons c rest ih =>
    by_cases h : p c
    · obtain ⟨t, ht⟩ := ih
      exact ⟨c :: t, by simp [List.dropWhile_cons, h, ht]⟩
    · exact ⟨[], by simp [List.dropWhile_cons, h]⟩

theorem pyStrip_infix_own (l : List Char) : pyStrip l <:+: l := by
  obtain ⟨t, ht⟩ := dropWhile_suffix_own isPySpace l
  obtain ⟨u, hu⟩ := dropWhile_suffix_own isPySpace (l.dropWhile isPySpace).reverse
  refine ⟨t, u.reverse, ?_⟩
  have h2 : pyStrip l ++ u.reverse = l.dropWhile isPySpace := by
    have h3 := congrArg List.reverse hu
    simpa [pyStrip, List.reverse_append] using h3
  rw [List.append_assoc, h2, ht]

theorem lastLine_infix_own (l : List Char) : lastLine l <:+: l := by
  refine ⟨(l.reverse.dropWhile (fun c => c != '\n')).reverse, [], ?_⟩
  rw [List.append_nil, lastLine, ← List.reverse_append,
    List.takeWhile_append_dropWhile, List.reverse_reverse]

theorem infix_map_own (f : Char → Char) {a b : List Char} (h : a <:+: b) :
    a.map f <:+: b.map f := by
  obtain ⟨s, t, rfl⟩ := h
  exact ⟨s.map f, t.map f, by simp⟩

theorem map_eq_append_own (f : Char → Char) :
    ∀ (s₁ l s₂ : List Char), l.map f = s₁ ++ s₂ →
      ∃ l₁ l₂, l = l₁ ++ l₂ ∧ l₁.map f = s₁ ∧ l₂.map f = s₂ := by
  intro s₁
  induction s₁ with
  | nil => intro l s₂ h; exact ⟨[], l, by simp, rfl, by simpa using h⟩
  | cons x xs ih =>
    intro l s₂ h
    cases l with
    | nil => simp at h
    | cons c cs =>
      simp only [List.map_cons, List.cons_append, List.cons.injEq] at h
      obtain ⟨l₁, l₂, rfl, hl1, hl2⟩ := ih cs s₂ h.2
      exact ⟨c :: l₁, l₂, by simp, by simp [h.1, hl1], hl2⟩

theorem infix_map_drop_bad_own (f g : Char → Char) (bad : Char)
    (hfg : ∀ c, f c = g c ∨ f c = bad) {p s : List Char}
    (hp : bad ∉ p) (h : p <:+: s.map f) : p <:+: s.map g := by
  obtain ⟨u, v, huv⟩ := h
  obtain ⟨l₁, l₂₃, rfl, hu, h23⟩ := map_eq_append_own f u s (p ++ v)
    (by rw [← huv]; simp)
  obtain ⟨l₂, l₃, rfl, hp2, hv⟩ := map_eq_append_own f p l₂₃ v h23
  have hmid : l₂.map g = p := by
    rw [← hp2]
    refine List.map_congr_left ?_
    intro x hx
    rcases hfg x with hcase | hcase
    · exact hcase.symm
    · exfalso
      have hbad : f x ∈ List.map f l₂ := List.mem_map_of_mem f hx
      rw [hcase, hp2] at hbad
      exact hp hbad
  exact ⟨l₁.map g, l₃.map g, by rw [← hmid]; simp⟩

theorem lower_crlf_dichotomy (c : Char) :
    Char.toLower (crlfChar c) = Char.toLower c ∨ Char.toLower (crlfChar c) = '\n' := by
  by_cases h : c = '\r'
  · subst h; right; decide
  · left; simp [crlfChar, h]

theorem transient_preserved_own (q prompt : List Char) (hnl : '\n' ∉ q)
    (h : containsSeq q (lowerL prompt) = false) :
    containsSeq q (lowerL (pyStrip (lastLine (normalizeLf prompt)))) = false := by
  rw [← Bool.not_eq_true] at h ⊢
  intro hq
  apply h
  rw [containsSeq_iff_own] at hq ⊢
  have step1 : pyStrip (lastLine (normalizeLf prompt)) <:+: normalizeLf prompt :=
    (pyStrip_infix_own _).trans (lastLine_infix_own _)
  have step2 : lowerL (pyStrip (lastLine (normalizeLf prompt))) <:+:
      lowerL (normalizeLf prompt) := infix_map_own Char.toLower step1
  have step3 : lowerL (normalizeLf prompt) =
      prompt.map (fun c => Char.toLower (crlfChar c)) := by
    simp [lowerL, normalizeLf, Function.comp]
  have step4 : q <:+: prompt.map (fun c => Char.toLower (crlfChar c)) := by
    rw [← step3]
    exact hq.trans step2
  have step5 : q <:+: prompt.map Char.toLower :=
    infix_map_drop_bad_own (fun c => Char.toLower (crlfChar c)) Char.toLower '\n'
      lower_crlf_dichotomy hnl step4
  simpa [lowerL] using step5

theorem noTransient_post_own {prompt : List Char} (h : transientB prompt = false) :
    noTransient (pyStrip (lastLine (normalizeLf prompt))) := by
  rw [transientB] at h
  simp only [Bool.or_eq_false_iff] at h
  obtain ⟨⟨h1, h2⟩, h3⟩ := h
  exact ⟨transient_preserved_own _ _ (by decide) h1,
    transient_preserved_own _ _ (by decide) h2,
    transient_preserved_own _ _ (by decide) h3⟩

theorem fpGo_found_noTransient (S : Session) (tr : ℕ → Poll) (start : ℕ) :
    ∀ (fuel : ℕ) (st : ChanSt) (r : List Char) (st2 : ChanSt),
      fpGo S tr start fuel st = .found r st2 → noTransient r := by
  intro fuel
  induction fuel with
  | zero =>
    intro st r st2 h
    rw [fpGo, fpExit] at h
    split at h <;> simp_all
  | succ fuel ih =>
    intro st r st2 h
    rw [fpGo] at h
    split at h
    · split at h
      · split at h
        · exact ih _ r st2 h
        · rename_i htr
          injection h with h1 h2
          rw [← h1]
          exact noTransient_post_own (by simpa using htr)
      · exact ih _ r st2 h
    · rw [fpExit] at h
      split at h <;> simp_all

/-- C3: for every channel trace, whatever prompt find_prompt eventually
returns contains none of the transient banner substrings "last login",
"executing autocommand", "last switch-over" (case-insensitively): a read
matching one of them is never accepted as the prompt, the loop instead
sleeps, clears, resends the return and retries, and the post-processing of
an accepted read (line-ending normalization, last line, strip) cannot
introduce a transient substring. -/
theorem C3_find_prompt_never_transient (S : Session) (tr : ℕ → Poll)
    (delayFactorArg : Option ℕ) (patternArg : Option (List Char))
    (st : ChanSt) (r : List Char) (st2 : ChanSt)
    (h : find_prompt S tr delayFactorArg patternArg st = .found r st2) :
    noTransient r :=
  fpGo_found_noTransient S tr (st.now + LOOP_DELAY_MS) _ _ r st2 h

/-- Witness for C3: a scripted channel that answers the return with
"Router#"; find_prompt accepts it and the result is transient-free. -/
theorem C3_witness : noTransient "Router#".toList :=
  C3_find_prompt_never_transient ⟨1000, "R#".toList⟩
    (fun _ => ⟨false, "Router#".toList⟩) none none ⟨0, 0⟩
    "Router#".toList ⟨1, 200⟩ (by decide)

/-- C4: CiscoVxrSSH.commit raises ValueError before any channel I/O exactly
when confirm is truthy without a truthy confirm_delay, confirm_delay is
truthy without confirm, comment and confirm are both truthy, or the comment
contains a double quote; in all other cases no validation error is raised
and a command string is produced. -/
theorem C4_commit_validation :
    ∀ (confirm : Bool) (confirmDelay : Option Int) (comment label : List Char)
      (replace bestEffort force : Bool),
      commitPrepare confirm confirmDelay comment label replace bestEffort force = none ↔
        ((confirm = true ∧ optIntTruthy confirmDelay = false) ∨
         (optIntTruthy confirmDelay = true ∧ confirm = false) ∨
         (comment ≠ [] ∧ confirm = true) ∨
         '"' ∈ comment) := by
  intro confirm confirmDelay comment label replace bestEffort force
  unfold commitPrepare
  split_ifs with h1 h2 h3 h4
  · simpa using Or.inl h1
  · simpa using Or.inr (Or.inl h2)
  · simpa using Or.inr (Or.inr (Or.inl h3))
  · simpa using Or.inr (Or.inr (Or.inr h4.2))
  · constructor
    · intro h; exact absurd h (by simp)
    · rintro (hc | hc | hc | hq)
      · exact absurd hc h1
      · exact absurd hc h2
      · exact absurd hc h3
      · exact absurd ⟨List.ne_nil_of_mem hq, hq⟩ h4

/-- C5: the command string built by commit follows the fixed precedence
label, then confirm, then comment, then bare commit: label "L" with confirm
and confirm_delay 30 yields exactly "commit label L confirmed 30", and no
options yields exactly "commit". -/
theorem C5_commit_command_text :
    commitPrepare true (some 30) [] "L".toList false false false =
        some "commit label L confirmed 30".toList ∧
    commitPrepare false none [] [] false false false = some "commit".toList := by
  constructor
  · decide
  · decide

/-- C9: the force modifier is applied with `str.replace` on the whole
command string, so a label that itself contains "commit" is rewritten too:
label "commitX" with force yields "commit force label commit forceX", not
"commit force label commitX". -/
theorem C9_force_rewrites_inside_label :
    commitPrepare false none [] "commitX".toList false false true =
        some "commit force label commit forceX".toList ∧
    commitPrepare false none [] "commitX".toList false false true ≠
        some "commit force label commitX".toList := by
  constructor
  · decide
  · decide

/-- Counterexample for C6: on the output "RP/0/RSP0/CPU0:BNG(admin)#" the
claimed value (")#" tested after removing "(admin)") is false, but
CiscoVxrSSH.check_config_mode — which tests ")#" without the removal —
returns true, reporting the bare admin prompt as config mode. -/
theorem C6_counterexample :
    vxr_check_config_mode "RP/0/RSP0/CPU0:BNG(admin)#".toList = true ∧
    containsSeq ")#".toList
      (pyReplace "(admin)".toList [] "RP/0/RSP0/CPU0:BNG(admin)#".toList) = false := by
  constructor
  · decide
  · decide

/-- C6 (amended): CiscoXrBase.check_config_mode returns true exactly when
")#" occurs in the wait's output after every "(admin)" is removed — so the
bare admin prompt is reported as not in config mode — while the overriding
CiscoVxrSSH.check_config_mode tests ")#" on the raw output, so it reports
the bare admin prompt as in config mode. -/
theorem C6_check_config_mode_amended :
    ∀ output : List Char,
      (xr_check_config_mode output = true ↔
        ")#".toList <:+: pyReplace "(admin)".toList [] output) ∧
      (vxr_check_config_mode output = true ↔ ")#".toList <:+: output) ∧
      xr_check_config_mode "RP/0/RSP0/CPU0:BNG(admin)#".toList = false ∧
      vxr_check_config_mode "RP/0/RSP0/CPU0:BNG(admin)#".toList = true := by
  intro output
  exact ⟨containsSeq_iff_own, containsSeq_iff_own, by decide, by decide⟩

/-- C7: the telnet_login success check at the failing input
"root@spitfire-arm:~#": the spitfire marker is seen and the primary
terminator matches, and the code returns success anyway (Python evaluates
`pri or alt and not is_spitfire` as `pri or (alt and not is_spitfire)`),
whereas the claimed behavior — success only with a terminator match and no
spitfire marker — is false here. -/
theorem C7_spitfire_check_failing_input :
    spitfireSeen "root@spitfire-arm:~#".toList = true ∧
    termMatch '#' "root@spitfire-arm:~#".toList = true ∧
    telnetLoginCheck "root@spitfire-arm:~#".toList false = true ∧
    ((termMatch '#' "root@spitfire-arm:~#".toList ||
      termMatch '>' "root@spitfire-arm:~#".toList) &&
      !spitfireSeen "root@spitfire-arm:~#".toList) = false := by
  refine ⟨by decide, by decide, by decide, by decide⟩

/-- C8: the echo-repaint correction is the identity on any accumulated
output whose first CRLF-line contains no backspace character, for every
search pattern. -/
theorem C8_repaint_identity_without_backspace :
    ∀ (searchPat output : List Char),
      BACKSPACE_CHAR ∉ (splitCRLF output).headD [] →
      echoRepaintCorrect searchPat output = output := by
  intro searchPat output h
  exact if_neg h

/-- Witness for C8 at a concrete backspace-free output. -/
theorem C8_witness :
    BACKSPACE_CHAR ∉ (splitCRLF "show version\r\nRouter#".toList).headD [] ∧
    echoRepaintCorrect "Router#".toList "show version\r\nRouter#".toList =
      "show version\r\nRouter#".toList :=
  ⟨by decide, C8_repaint_identity_without_backspace "Router#".toList
    "show version\r\nRouter#".toList (by decide)⟩

theorem accumData_shift (tr : ℕ → Poll) (i : ℕ) :
    ∀ j, accumData tr i (j+1) = (tr i).data ++ accumData tr (i+1) j := by
  intro j
  induction j with
  | zero => simp [accumData]
  | succ j ih =>
    have hidx : i + (j + 1) = (i + 1) + j := by omega
    rw [accumData, ih, accumData, hidx, List.append_assoc]

theorem fpElapsedFrom_shift (tr : ℕ → Poll) (i : ℕ) :
    ∀ j, fpElapsedFrom tr i (j+1) = fpStepMs tr i + fpElapsedFrom tr (i+1) j := by
  intro j
  induction j with
  | zero => simp [fpElapsedFrom]
  | succ j ih =>
    have hidx : i + (j + 1) = (i + 1) + j := by omega
    rw [fpElapsedFrom, ih, fpElapsedFrom, hidx, Nat.add_assoc]

theorem fpElapsedFrom_lower (tr : ℕ → Poll) (i : ℕ) :
    ∀ j, LOOP_DELAY_MS * j ≤ fpElapsedFrom tr i j := by
  intro j
  induction j with
  | zero => simp [fpElapsedFrom]
  | succ j ih =>
    have hstep : LOOP_DELAY_MS ≤ fpStepMs tr (i + j) := by
      rw [fpStepMs]
      split
      · exact Nat.le_refl _
      · decide
    calc LOOP_DELAY_MS * (j + 1) = LOOP_DELAY_MS * j + LOOP_DELAY_MS := by ring
    _ ≤ fpElapsedFrom tr i j + fpStepMs tr (i + j) := Nat.add_le_add ih hstep
    _ = fpElapsedFrom tr i (j + 1) := by rw [fpElapsedFrom]

theorem ruGo_closed_down (S : Session) (tr : ℕ → Poll) (m : List Char → Bool) (start : ℕ) :
    ∀ (k fuel : ℕ) (st : ChanSt) (out : List Char), k ≤ fuel → start ≤ st.now →
      (∀ j, j < k → (tr (st.idx + j)).closed = false ∧
        (st.now - start) + LOOP_DELAY_MS * j < S.readTimeoutMs ∧
        m (out ++ accumData tr st.idx (j+1)) = false) →
      (tr (st.idx + k)).closed = true →
      ∃ st2, ruGo S tr m start fuel st out = .down st2 := by
  intro k
  induction k with
  | zero =>
    intro fuel st out _ _ _ hcl
    have hc : (tr st.idx).closed = true := by simpa using hcl
    cases fuel with
    | zero => exact ⟨st, by rw [ruGo, ruExit, if_pos hc]⟩
    | succ fuel => exact ⟨st, by rw [ruGo, if_neg (by simp [hc]), ruExit, if_pos hc]⟩
  | succ k ih =>
    intro fuel st out hfuel hstart hpath hcl
    cases fuel with
    | zero => omega
    | succ fuel =>
      obtain ⟨hopen0, htime0, hm0⟩ := hpath 0 (Nat.succ_pos k)
      have hopen : (tr st.idx).closed = false := by simpa using hopen0
      have htime : st.now - start < S.readTimeoutMs := by simpa using htime0
      have hm1 : m (out ++ (tr st.idx).data) = false := by
        simpa [accumData] using hm0
      rw [ruGo, if_pos ⟨htime, hopen⟩, if_neg (by simp [hm1])]
      refine ih fuel ⟨st.idx + 1, st.now + LOOP_DELAY_MS⟩ (out ++ (tr st.idx).data)
        (by omega) (le_trans hstart (Nat.le_add_right _ _)) ?_ ?_
      · intro j hj
        obtain ⟨hc1, hc2, hc3⟩ := hpath (j+1) (by omega)
        have e : st.idx + 1 + j = st.idx + (j+1) := by omega
        refine ⟨by simpa [e] using hc1, ?_, ?_⟩
        · show (st.now + LOOP_DELAY_MS) - start + LOOP_DELAY_MS * j < S.readTimeoutMs
          simp only [LOOP_DELAY_MS] at hc2 ⊢
          omega
        · show m ((out ++ (tr st.idx).data) ++ accumData tr (st.idx + 1) (j+1)) = false
          rw [List.append_assoc, ← accumData_shift]
          exact hc3
      · have e : st.idx + 1 + k = st.idx + (k+1) := by omega
        simpa [e] using hcl

theorem ruGo_open_nomatch (S : Session) (tr : ℕ → Poll) (m : List Char → Bool) (start : ℕ)
    (hopen : ∀ j, (tr j).closed = false) :
    ∀ (fuel : ℕ) (st : ChanSt) (out : List Char),
      (∀ j, m (out ++ accumData tr st.idx j) = false) →
      start ≤ st.now →
      S.readTimeoutMs ≤ (st.now - start) + LOOP_DELAY_MS * fuel →
      st.now - start < S.readTimeoutMs + LOOP_DELAY_MS →
      ∃ out2 st2, ruGo S tr m start fuel st out = .notFound out2 st2 ∧
        S.readTimeoutMs ≤ st2.now - start ∧
        st2.now - start < S.readTimeoutMs + LOOP_DELAY_MS := by
  intro fuel
  induction fuel with
  | zero =>
    intro st out _ _ hlow hup
    refine ⟨out, st, ?_, by simpa using hlow, hup⟩
    rw [ruGo, ruExit, if_neg (by simp [hopen st.idx])]
  | succ fuel ih =>
    intro st out hm hstart hlow hup
    by_cases hlt : st.now - start < S.readTimeoutMs
    · have hm1 : m (out ++ (tr st.idx).data) = false := by
        simpa [accumData] using hm 1
      rw [ruGo, if_pos ⟨hlt, hopen st.idx⟩, if_neg (by simp [hm1])]
      refine ih ⟨st.idx + 1, st.now + LOOP_DELAY_MS⟩ (out ++ (tr st.idx).data) ?_
        (le_trans hstart (Nat.le_add_right _ _)) ?_ ?_
      · intro j
        show m ((out ++ (tr st.idx).data) ++ accumData tr (st.idx + 1) j) = false
        cases j with
        | zero => simpa [accumData] using hm 1
        | succ j =>
          rw [List.append_assoc, ← accumData_shift]
          exact hm (j + 2)
      · show S.readTimeoutMs ≤ (st.now + LOOP_DELAY_MS) - start + LOOP_DELAY_MS * fuel
        simp only [LOOP_DELAY_MS] at hlow ⊢
        omega
      · show (st.now + LOOP_DELAY_MS) - start < S.readTimeoutMs + LOOP_DELAY_MS
        simp only [LOOP_DELAY_MS] at hlt ⊢
        omega
    · refine ⟨out, st, ?_, by omega, hup⟩
      rw [ruGo, if_neg (by simp [hlt]), ruExit, if_neg (by simp [hopen st.idx])]

theorem fpGo_closed_down (S : Session) (tr : ℕ → Poll) (start : ℕ) :
    ∀ (k fuel : ℕ) (st : ChanSt), k ≤ fuel → start ≤ st.now →
      (∀ j, j < k → (tr (st.idx + j)).closed = false ∧
        (st.now - start) + fpElapsedFrom tr st.idx j < S.readTimeoutMs ∧
        (pyStrip (tr (st.idx + j)).data = [] ∨
          transientB (pyStrip (tr (st.idx + j)).data) = true)) →
      (tr (st.idx + k)).closed = true →
      ∃ st2, fpGo S tr start fuel st = .down st2 := by
  intro k
  induction k with
  | zero =>
    intro fuel st _ _ _ hcl
    have hc : (tr st.idx).closed = true := by simpa using hcl
    cases fuel with
    | zero => exact ⟨st, by rw [fpGo, fpExit, if_pos hc]⟩
    | succ fuel => exact ⟨st, by rw [fpGo, if_neg (by simp [hc]), fpExit, if_pos hc]⟩
  | succ k ih =>
    intro fuel st hfuel hstart hpath hcl
    cases fuel with
    | zero => omega
    | succ fuel =>
      obtain ⟨hopen0, htime0, hbr0⟩ := hpath 0 (Nat.succ_pos k)
      have hopen : (tr st.idx).closed = false := by simpa using hopen0
      have htime : st.now - start < S.readTimeoutMs := by
        simpa [fpElapsedFrom] using htime0
      rw [fpGo, if_pos ⟨htime, hopen⟩]
      have hbr : pyStrip (tr st.idx).data = [] ∨
          transientB (pyStrip (tr st.idx).data) = true := by simpa using hbr0
      rcases hbr with hemp | htrn
      · rw [if_neg (by simp [hemp])]
        refine ih fuel ⟨st.idx + 1, st.now + LOOP_DELAY_MS⟩ (by omega)
          (le_trans hstart (Nat.le_add_right _ _)) ?_ ?_
        · intro j hj
          obtain ⟨hc1, hc2, hc3⟩ := hpath (j+1) (by omega)
          have e : st.idx + 1 + j = st.idx + (j+1) := by omega
          refine ⟨by simpa [e] using hc1, ?_, by simpa [e] using hc3⟩
          show (st.now + LOOP_DELAY_MS) - start + fpElapsedFrom tr (st.idx + 1) j <
            S.readTimeoutMs
          have hshift := fpElapsedFrom_shift tr st.idx j
          have hstep : fpStepMs tr st.idx = LOOP_DELAY_MS := by simp [fpStepMs, hemp]
          rw [hstep] at hshift
          rw [hshift] at hc2
          omega
        · have e : st.idx + 1 + k = st.idx + (k+1) := by omega
          simpa [e] using hcl
      · have hne : pyStrip (tr st.idx).data ≠ [] := by
          intro he
          rw [he] at htrn
          simp [transientB, containsSeq, lowerL] at htrn
        rw [if_pos hne, if_pos htrn]
        refine ih fuel ⟨st.idx + 1, st.now + 3200⟩ (by omega)
          (le_trans hstart (Nat.le_add_right _ _)) ?_ ?_
        · intro j hj
          obtain ⟨hc1, hc2, hc3⟩ := hpath (j+1) (by omega)
          have e : st.idx + 1 + j = st.idx + (j+1) := by omega
          refine ⟨by simpa [e] using hc1, ?_, by simpa [e] using hc3⟩
          show (st.now + 3200) - start + fpElapsedFrom tr (st.idx + 1) j < S.readTimeoutMs
          have hshift := fpElapsedFrom_shift tr st.idx j
          have hstep : fpStepMs tr st.idx = 3200 := by simp [fpStepMs, hne]
          rw [hstep] at hshift
          rw [hshift] at hc2
          omega
        · have e : st.idx + 1 + k = st.idx + (k+1) := by omega
          simpa [e] using hcl

theorem scElapsedFrom_shift (tr : ℕ → Poll) (i : ℕ) :
    ∀ j, scElapsedFrom tr i (j+1) = scStepMs tr i + scElapsedFrom tr (i+1) j := by
  intro j
  induction j with
  | zero => simp [scElapsedFrom]
  | succ j ih =>
    have hidx : i + (j + 1) = (i + 1) + j := by omega
    rw [scElapsedFrom, ih, scElapsedFrom, hidx, Nat.add_assoc]

theorem scAccum_shift (searchPat : List Char) (tr : ℕ → Poll) (i : ℕ)
    (out : List Char) :
    ∀ j, scAccum searchPat tr i out (j+1) =
      scAccum searchPat tr (i+1) (scStep searchPat tr i out) j := by
  intro j
  induction j with
  | zero => simp [scAccum]
  | succ j ih =>
    have hidx : i + (j + 1) = (i + 1) + j := by omega
    rw [scAccum, ih, scAccum, hidx]

theorem scGo_closed_down (S : Session) (tr : ℕ → Poll) (searchPat : List Char)
    (expectNone stripP stripC : Bool) (start : ℕ) :
    ∀ (k fuel : ℕ) (st : ChanSt) (out : List Char), k + 1 ≤ fuel → start ≤ st.now →
      (∀ j, j < k → (tr (st.idx + j)).closed = false ∧
        (st.now - start) + scElapsedFrom tr st.idx j < S.readTimeoutMs ∧
        containsSeq searchPat (scAccum searchPat tr st.idx out (j+1)) = false ∧
        containsSeq configLargeMsg (scAccum searchPat tr st.idx out (j+1)) = false) →
      (tr (st.idx + k)).closed = true →
      ∃ st2, scGo S tr fuel searchPat expectNone stripP stripC start st out =
        some (.down st2) := by
  intro k
  induction k with
  | zero =>
    intro fuel st out hfuel hstart _ hcl
    have hc : (tr st.idx).closed = true := by simpa using hcl
    cases fuel with
    | zero => omega
    | succ fuel =>
      refine ⟨st, ?_⟩
      rw [scGo, if_neg (by simp [hc]), if_pos hc]
  | succ k ih =>
    intro fuel st out hfuel hstart hpath hcl
    cases fuel with
    | zero => omega
    | succ fuel =>
      obtain ⟨hopen0, htime0, hm0, hb0⟩ := hpath 0 (Nat.succ_pos k)
      have hopen : (tr st.idx).closed = false := by simpa using hopen0
      have htime : st.now - start < S.readTimeoutMs := by
        simpa [scElapsedFrom] using htime0
      rw [scGo, if_pos ⟨htime, hopen⟩]
      by_cases hdat : (tr st.idx).data = []
      · rw [if_neg (by simp [hdat])]
        have hstepout : scStep searchPat tr st.idx out = out := by
          simp [scStep, hdat]
        have haccum : ∀ n, scAccum searchPat tr (st.idx + 1) out n =
            scAccum searchPat tr st.idx out (n+1) := by
          intro n
          rw [scAccum_shift, hstepout]
        refine ih fuel ⟨st.idx + 1, st.now + LOOP_DELAY_MS⟩ out (by omega)
          (le_trans hstart (Nat.le_add_right _ _)) ?_ ?_
        · intro j hj
          obtain ⟨hc1, hc2, hc3, hc4⟩ := hpath (j+1) (by omega)
          have e : st.idx + 1 + j = st.idx + (j+1) := by omega
          refine ⟨by simpa [e] using hc1, ?_, ?_, ?_⟩
          · show (st.now + LOOP_DELAY_MS) - start + scElapsedFrom tr (st.idx + 1) j <
              S.readTimeoutMs
            have hshift := scElapsedFrom_shift tr st.idx j
            have hstep : scStepMs tr st.idx = LOOP_DELAY_MS := by
              simp [scStepMs, hdat]
            rw [hstep] at hshift
            rw [hshift] at hc2
            simp only [LOOP_DELAY_MS] at hc2 ⊢
            omega
          · show containsSeq searchPat
              (scAccum searchPat tr (st.idx + 1) out (j+1)) = false
            rw [haccum]
            exact hc3
          · show containsSeq configLargeMsg
              (scAccum searchPat tr (st.idx + 1) out (j+1)) = false
            rw [haccum]
            exact hc4
        · have e : st.idx + 1 + k = st.idx + (k+1) := by omega
          simpa [e] using hcl
      · rw [if_pos hdat]
        have hacc1 : scAccum searchPat tr st.idx out 1 =
            echoRepaintCorrect searchPat (out ++ (tr st.idx).data) := by
          simp [scAccum, scStep, hdat]
        have hm1 : containsSeq searchPat
            (echoRepaintCorrect searchPat (out ++ (tr st.idx).data)) = false := by
          rw [← hacc1]
          simpa using hm0
        have hb1 : containsSeq configLargeMsg
            (echoRepaintCorrect searchPat (out ++ (tr st.idx).data)) = false := by
          rw [← hacc1]
          simpa using hb0
        rw [if_neg (by simp [hm1]), if_neg (by simp [hb1])]
        have hstepout : scStep searchPat tr st.idx out =
            echoRepaintCorrect searchPat (out ++ (tr st.idx).data) := by
          simp [scStep, hdat]
        have haccum : ∀ n, scAccum searchPat tr (st.idx + 1)
            (echoRepaintCorrect searchPat (out ++ (tr st.idx).data)) n =
            scAccum searchPat tr st.idx out (n+1) := by
          intro n
          rw [← hstepout, ← scAccum_shift]
        refine ih fuel ⟨st.idx + 1, st.now⟩
          (echoRepaintCorrect searchPat (out ++ (tr st.idx).data)) (by omega)
          hstart ?_ ?_
        · intro j hj
          obtain ⟨hc1, hc2, hc3, hc4⟩ := hpath (j+1) (by omega)
          have e : st.idx + 1 + j = st.idx + (j+1) := by omega
          refine ⟨by simpa [e] using hc1, ?_, ?_, ?_⟩
          · show st.now - start + scElapsedFrom tr (st.idx + 1) j < S.readTimeoutMs
            have hshift := scElapsedFrom_shift tr st.idx j
            have hstep : scStepMs tr st.idx = 0 := by simp [scStepMs, hdat]
            rw [hstep] at hshift
            rw [hshift] at hc2
            simpa using hc2
          · show containsSeq searchPat (scAccum searchPat tr (st.idx + 1)
              (echoRepaintCorrect searchPat (out ++ (tr st.idx).data)) (j+1)) = false
            rw [haccum]
            exact hc3
          · show containsSeq configLargeMsg (scAccum searchPat tr (st.idx + 1)
              (echoRepaintCorrect searchPat (out ++ (tr st.idx).data)) (j+1)) = false
            rw [haccum]
            exact hc4
        · have e : st.idx + 1 + k = st.idx + (k+1) := by omega
          simpa [e] using hcl

theorem find_prompt_closed_down (S : Session) (tr : ℕ → Poll) (df : Option ℕ)
    (pa : Option (List Char)) (st0 : ChanSt) (k : ℕ)
    (hpath : ∀ j, j < k → (tr (st0.idx + j)).closed = false ∧
      fpElapsedFrom tr st0.idx j < S.readTimeoutMs ∧
      (pyStrip (tr (st0.idx + j)).data = [] ∨
        transientB (pyStrip (tr (st0.idx + j)).data) = true))
    (hcl : (tr (st0.idx + k)).closed = true) :
    ∃ st2, find_prompt S tr df pa st0 = .down st2 := by
  have hk : k ≤ S.readTimeoutMs / LOOP_DELAY_MS + 1 := by
    cases k with
    | zero => exact Nat.zero_le _
    | succ k0 =>
      have h1 := (hpath k0 (by omega)).2.1
      have h2 := fpElapsedFrom_lower tr st0.idx k0
      have h3 : LOOP_DELAY_MS * k0 < S.readTimeoutMs := lt_of_le_of_lt h2 h1
      simp only [LOOP_DELAY_MS] at h3 ⊢
      omega
  unfold find_prompt
  exact fpGo_closed_down S tr (st0.now + LOOP_DELAY_MS) k _
    ⟨st0.idx, st0.now + LOOP_DELAY_MS⟩ hk (Nat.le_refl _)
    (fun j hj => by
      obtain ⟨a, b, c⟩ := hpath j hj
      exact ⟨a, by simpa using b, c⟩) hcl

/-- C1: for each wait operation — read_until_pattern, find_prompt and
send_command — if the channel reports closed at a polling iteration the loop
actually reaches (every earlier iteration polled an open channel within the
time budget and did not match or break), the operation raises
SessionDownException: never the timeout error and never a successful
return, regardless of the text accumulated so far.  For send_command the
statement covers arbitrary non-matching accumulated text (conjunct three,
for a caller pattern or the base-prompt pattern with prompt detection off;
the reached reads may carry any data whose repaint-corrected accumulation
matches neither the search pattern nor the slow-operation banner that
diverts into the recursive continuation path), closure observed during the
automatic prompt detection (conjunct four), and closure after a successful
prompt detection, again with arbitrary non-matching accumulated text
(conjunct five). -/
theorem C1_closed_channel_always_session_down :
    (∀ (S : Session) (tr : ℕ → Poll) (matchOpt : Option (List Char → Bool))
        (ml : Option ℕ) (rt : ℕ) (st0 : ChanSt) (k : ℕ),
      (∀ j, j < k → (tr (st0.idx + j)).closed = false ∧
        LOOP_DELAY_MS * j < S.readTimeoutMs ∧
        ruMatchOf S matchOpt (accumData tr st0.idx (j+1)) = false) →
      (tr (st0.idx + k)).closed = true →
      ∃ st2, read_until_pattern S tr matchOpt ml rt st0 = .down st2) ∧
    (∀ (S : Session) (tr : ℕ → Poll) (df : Option ℕ) (pa : Option (List Char))
        (st0 : ChanSt) (k : ℕ),
      (∀ j, j < k → (tr (st0.idx + j)).closed = false ∧
        fpElapsedFrom tr st0.idx j < S.readTimeoutMs ∧
        (pyStrip (tr (st0.idx + j)).data = [] ∨
          transientB (pyStrip (tr (st0.idx + j)).data) = true)) →
      (tr (st0.idx + k)).closed = true →
      ∃ st2, find_prompt S tr df pa st0 = .down st2) ∧
    (∀ (S : Session) (tr : ℕ → Poll) (fuel : ℕ) (cmd : List Char)
        (expect : Option (List Char)) (df ml : Option ℕ) (aFP sP sC nm cv : Bool)
        (rt : ℕ) (st0 : ChanSt) (k : ℕ),
      k + 2 ≤ fuel →
      (expect ≠ none ∨ aFP = false) →
      (∀ j, j < k → (tr (st0.idx + j)).closed = false ∧
        scElapsedFrom tr st0.idx j < S.readTimeoutMs ∧
        containsSeq (scPatOf S expect)
          (scAccum (scPatOf S expect) tr st0.idx [] (j+1)) = false ∧
        containsSeq configLargeMsg
          (scAccum (scPatOf S expect) tr st0.idx [] (j+1)) = false) →
      (tr (st0.idx + k)).closed = true →
      ∃ st2, send_command S tr fuel cmd expect df ml aFP sP sC nm rt cv st0 =
        some (.down st2)) ∧
    (∀ (S : Session) (tr : ℕ → Poll) (fuel : ℕ) (cmd : List Char)
        (df ml : Option ℕ) (sP sC nm cv : Bool) (rt : ℕ) (st0 : ChanSt) (k : ℕ),
      1 ≤ fuel →
      (∀ j, j < k → (tr (st0.idx + j)).closed = false ∧
        fpElapsedFrom tr st0.idx j < S.readTimeoutMs ∧
        (pyStrip (tr (st0.idx + j)).data = [] ∨
          transientB (pyStrip (tr (st0.idx + j)).data) = true)) →
      (tr (st0.idx + k)).closed = true →
      ∃ st2, send_command S tr fuel cmd none df ml true sP sC nm rt cv st0 =
        some (.down st2)) ∧
    (∀ (S : Session) (tr : ℕ → Poll) (fuel : ℕ) (cmd : List Char)
        (df ml : Option ℕ) (sP sC nm cv : Bool) (rt : ℕ) (st0 : ChanSt) (k : ℕ)
        (p : List Char) (st1 : ChanSt),
      k + 2 ≤ fuel →
      find_prompt S tr none none st0 = .found p st1 →
      (∀ j, j < k → (tr (st1.idx + j)).closed = false ∧
        scElapsedFrom tr st1.idx j < S.readTimeoutMs ∧
        containsSeq (pyStrip p) (scAccum (pyStrip p) tr st1.idx [] (j+1)) = false ∧
        containsSeq configLargeMsg (scAccum (pyStrip p) tr st1.idx [] (j+1)) = false) →
      (tr (st1.idx + k)).closed = true →
      ∃ st2, send_command S tr fuel cmd none df ml true sP sC nm rt cv st0 =
        some (.down st2)) := by
  refine ⟨?_, ?_, ?_, ?_, ?_⟩
  · intro S tr matchOpt ml rt st0 k hpath hcl
    have hk : k ≤ S.readTimeoutMs / LOOP_DELAY_MS + 1 := by
      cases k with
      | zero => exact Nat.zero_le _
      | succ k0 =>
        have := (hpath k0 (by omega)).2.1
        simp only [LOOP_DELAY_MS] at this ⊢
        omega
    unfold read_until_pattern
    exact ruGo_closed_down S tr (ruMatchOf S matchOpt) st0.now k _ st0 [] hk
      (Nat.le_refl _)
      (fun j hj => by
        obtain ⟨a, b, c⟩ := hpath j hj
        exact ⟨a, by simpa using b, by simpa using c⟩) hcl
  · intro S tr df pa st0 k hpath hcl
    exact find_prompt_closed_down S tr df pa st0 k hpath hcl
  · intro S tr fuel cmd expect df ml aFP sP sC nm cv rt st0 k hfuel hphase hpath hcl
    cases fuel with
    | zero => omega
    | succ fuel =>
      cases expect with
      | some pat =>
        unfold send_command
        rw [sendCommandCore]
        exact scGo_closed_down S tr pat false sP sC st0.now k fuel st0 []
          (by omega) (Nat.le_refl _)
          (fun j hj => by
            obtain ⟨a, b, c, d⟩ := hpath j hj
            exact ⟨a, by simpa using b, by simpa [scPatOf] using c,
              by simpa [scPatOf] using d⟩) hcl
      | none =>
        rcases hphase with h | h
        · exact absurd rfl h
        · subst h
          unfold send_command
          rw [sendCommandCore]
          show ∃ st2, scGo S tr fuel (pyStrip S.basePrompt) true sP sC st0.now st0 [] =
            some (SendResult.down st2)
          exact scGo_closed_down S tr (pyStrip S.basePrompt) true sP sC st0.now k
            fuel st0 [] (by omega) (Nat.le_refl _)
            (fun j hj => by
              obtain ⟨a, b, c, d⟩ := hpath j hj
              exact ⟨a, by simpa using b, by simpa [scPatOf] using c,
                by simpa [scPatOf] using d⟩) hcl
  · intro S tr fuel cmd df ml sP sC nm cv rt st0 k hfuel hpath hcl
    cases fuel with
    | zero => omega
    | succ fuel =>
      obtain ⟨st2, hdown⟩ := find_prompt_closed_down S tr none none st0 k hpath hcl
      refine ⟨st2, ?_⟩
      unfold send_command
      rw [sendCommandCore, hdown]
      rfl
  · intro S tr fuel cmd df ml sP sC nm cv rt st0 k p st1 hfuel hfp hpath hcl
    cases fuel with
    | zero => omega
    | succ fuel =>
      unfold send_command
      rw [sendCommandCore, hfp]
      exact scGo_closed_down S tr (pyStrip p) true sP sC st1.now k fuel st1 []
        (by omega) (Nat.le_refl _)
        (fun j hj => by
          obtain ⟨a, b, c, d⟩ := hpath j hj
          exact ⟨a, by simpa using b, c, d⟩) hcl

/-- Witness for C1: traces whose channel closes at the third (or fourth)
polling iteration; the first send_command instance accumulates non-matching
text before the closure, the second observes the closure while detecting
the prompt, and the third detects a prompt first and then accumulates
nothing before the closure; all operations report the session down. -/
theorem C1_witness :
    (∃ st2, read_until_pattern ⟨1000, []⟩ (fun j => ⟨decide (2 ≤ j), []⟩)
      (some (fun _ => false)) none 0 ⟨0, 0⟩ = .down st2) ∧
    (∃ st2, find_prompt ⟨1000, []⟩ (fun j => ⟨decide (2 ≤ j), []⟩)
      none none ⟨0, 0⟩ = .down st2) ∧
    (∃ st2, send_command ⟨1000, []⟩
      (fun j => ⟨decide (2 ≤ j), if j = 0 then "partial output".toList else []⟩) 10
      "show ver".toList (some "R#".toList) none none true true true true 0 true
      ⟨0, 0⟩ = some (.down st2)) ∧
    (∃ st2, send_command ⟨1000, []⟩ (fun j => ⟨decide (2 ≤ j), []⟩) 3
      "show ver".toList none none none true true true true 0 true
      ⟨0, 0⟩ = some (.down st2)) ∧
    (∃ st2, send_command ⟨1000, []⟩
      (fun j => ⟨decide (3 ≤ j), if j = 0 then "Router#".toList else []⟩) 10
      "show ver".toList none none none true true true true 0 true
      ⟨0, 0⟩ = some (.down st2)) := by
  refine ⟨?_, ?_, ?_, ?_, ?_⟩
  · exact C1_closed_channel_always_session_down.1 ⟨1000, []⟩
      (fun j => ⟨decide (2 ≤ j), []⟩) (some (fun _ => false)) none 0 ⟨0, 0⟩ 2
      (by decide) (by decide)
  · exact C1_closed_channel_always_session_down.2.1 ⟨1000, []⟩
      (fun j => ⟨decide (2 ≤ j), []⟩) none none ⟨0, 0⟩ 2
      (by decide) (by decide)
  · exact C1_closed_channel_always_session_down.2.2.1 ⟨1000, []⟩
      (fun j => ⟨decide (2 ≤ j), if j = 0 then "partial output".toList else []⟩) 10
      "show ver".toList (some "R#".toList) none none true true true true true 0
      ⟨0, 0⟩ 2 (by omega) (Or.inl (by simp)) (by decide) (by decide)
  · exact C1_closed_channel_always_session_down.2.2.2.1 ⟨1000, []⟩
      (fun j => ⟨decide (2 ≤ j), []⟩) 3 "show ver".toList none none
      true true true true 0 ⟨0, 0⟩ 2 (by omega) (by decide) (by decide)
  · exact C1_closed_channel_always_session_down.2.2.2.2 ⟨1000, []⟩
      (fun j => ⟨decide (3 ≤ j), if j = 0 then "Router#".toList else []⟩) 10
      "show ver".toList none none true true true true 0 ⟨0, 0⟩ 2
      "Router#".toList ⟨1, 200⟩ (by omega) (by decide) (by decide) (by decide)

/-- C2: against a channel that stays open and whose accumulated data never
matches the pattern, read_until_pattern keeps polling until the elapsed
wall-clock time reaches `self.read_timeout` and then raises
PatternNotFoundException; it never gives up earlier, and it stops less than
one poll interval (LOOP_DELAY) after the timeout is exceeded. -/
theorem C2_timeout_reached_within_one_poll :
    ∀ (S : Session) (tr : ℕ → Poll) (matchOpt : Option (List Char → Bool))
      (ml : Option ℕ) (rt : ℕ) (st0 : ChanSt),
      (∀ j, (tr j).closed = false) →
      (∀ j, ruMatchOf S matchOpt (accumData tr st0.idx j) = false) →
      ∃ out2 st2, read_until_pattern S tr matchOpt ml rt st0 = .notFound out2 st2 ∧
        S.readTimeoutMs ≤ st2.now - st0.now ∧
        st2.now - st0.now < S.readTimeoutMs + LOOP_DELAY_MS := by
  intro S tr matchOpt ml rt st0 hopen hm
  unfold read_until_pattern
  refine ruGo_open_nomatch S tr (ruMatchOf S matchOpt) st0.now hopen _ st0 [] ?_
    (Nat.le_refl _) ?_ ?_
  · intro j
    simpa using hm j
  · show S.readTimeoutMs ≤ st0.now - st0.now +
      LOOP_DELAY_MS * (S.readTimeoutMs / LOOP_DELAY_MS + 1)
    simp only [LOOP_DELAY_MS]
    omega
  · show st0.now - st0.now < S.readTimeoutMs + LOOP_DELAY_MS
    simp only [LOOP_DELAY_MS]
    omega

/-- Witness for C2: a 250 ms timeout against a silent open channel; the
loop raises PatternNotFound after at least 250 ms and before 350 ms. -/
theorem C2_witness :
    ∃ out2 st2,
      read_until_pattern ⟨250, []⟩ (fun _ => ⟨false, []⟩) (some (fun _ => false))
        none 0 ⟨0, 0⟩ = .notFound out2 st2 ∧
      250 ≤ st2.now - 0 ∧ st2.now - 0 < 250 + LOOP_DELAY_MS :=
  C2_timeout_reached_within_one_poll ⟨250, []⟩ (fun _ => ⟨false, []⟩)
    (some (fun _ => false)) none 0 ⟨0, 0⟩ (fun _ => rfl) (fun _ => rfl)

/-- C10: the caller-supplied read_timeout argument of read_until_pattern and
send_command has no effect: two calls identical except for that argument
return identical results on every trace, because the wait loops are bounded
by the session-level `self.read_timeout` fixed at construction. -/
theorem C10_read_timeout_argument_has_no_effect :
    ∀ (S : Session) (tr : ℕ → Poll),
      (∀ (matchOpt : Option (List Char → Bool)) (ml : Option ℕ) (rt1 rt2 : ℕ)
          (st : ChanSt),
        read_until_pattern S tr matchOpt ml rt1 st =
        read_until_pattern S tr matchOpt ml rt2 st) ∧
      (∀ (fuel : ℕ) (cmd : List Char) (expect : Option (List Char))
          (df ml : Option ℕ) (aFP sP sC nm cv : Bool) (rt1 rt2 : ℕ) (st : ChanSt),
        send_command S tr fuel cmd expect df ml aFP sP sC nm rt1 cv st =
        send_command S tr fuel cmd expect df ml aFP sP sC nm rt2 cv st) :=
  fun _ _ =>
    ⟨fun _ _ _ _ _ => rfl, fun _ _ _ _ _ _ _ _ _ _ _ _ _ => rfl⟩
